import Mathlib

/-!
Verification development for the v0-byok chat provider (`src/provider.ts`).

The development shallowly embeds the provider's message translator, request
builder, stream reassembler and error reporter as executable Lean functions,
and proves the specification's claims about them.  JavaScript values are
modelled as follows: optional fields become `Option`, JavaScript string
truthiness (`if (s)`) becomes an explicit emptiness test, numbers appearing
in request options become `Int`/`ℚ`, and `JSON.parse` / `JSON.stringify`
are modelled by an executable JSON parser and printer over an inductive
JSON value type.
-/

namespace V0Dev

/-! ### JSON values (the result type of `JSON.parse`) -/

inductive Json where
  | null : Json
  | bool (b : Bool) : Json
  | num (q : ℚ) : Json
  | str (s : String) : Json
  | arr (elems : List Json) : Json
  | obj (fields : List (String × Json)) : Json
deriving Repr

/-! ### JSON parsing (model of `JSON.parse`)

A recursive-descent parser over the character list, with a fuel argument
for termination; `jsonParse` supplies fuel larger than the input length,
which is always enough since every recursive call consumes input. -/

def isJsonWs (c : Char) : Bool :=
  c = ' ' || c = '\t' || c = '\n' || c = '\r'

def skipWs : List Char → List Char
  | [] => []
  | c :: cs => if isJsonWs c then skipWs cs else c :: cs

def hexVal (c : Char) : Option Nat :=
  if '0' ≤ c ∧ c ≤ '9' then some (c.toNat - 48)
  else if 'a' ≤ c ∧ c ≤ 'f' then some (c.toNat - 87)
  else if 'A' ≤ c ∧ c ≤ 'F' then some (c.toNat - 55)
  else none

def digitVal (c : Char) : Option Nat :=
  if '0' ≤ c ∧ c ≤ '9' then some (c.toNat - 48) else none

/-- Greedily consume decimal digits. -/
def parseDigits : List Char → (List Nat × List Char)
  | [] => ([], [])
  | c :: cs =>
    match digitVal c with
    | some d => let p := parseDigits cs; (d :: p.1, p.2)
    | none => ([], c :: cs)

def digitsToNat (ds : List Nat) : Nat :=
  ds.foldl (fun a d => a * 10 + d) 0

/-- Parse the remainder of a JSON string literal (the opening quote already
consumed), returning the decoded string and the rest of the input. -/
def parseJsonString : Nat → List Char → Option (String × List Char)
  | 0, _ => none
  | _, [] => none
  | fuel + 1, c :: cs =>
    if c = '"' then some ("", cs)
    else if c = '\\' then
      match cs with
      | [] => none
      | e :: cs2 =>
        let esc : Option (Char × List Char) :=
          if e = '"' then some ('"', cs2)
          else if e = '\\' then some ('\\', cs2)
          else if e = '/' then some ('/', cs2)
          else if e = 'b' then some ('\x08', cs2)
          else if e = 'f' then some ('\x0c', cs2)
          else if e = 'n' then some ('\n', cs2)
          else if e = 'r' then some ('\r', cs2)
          else if e = 't' then some ('\t', cs2)
          else if e = 'u' then
            match cs2 with
            | h1 :: h2 :: h3 :: h4 :: cs3 =>
              match hexVal h1, hexVal h2, hexVal h3, hexVal h4 with
              | some a, some b, some c2, some d =>
                some (Char.ofNat (a * 4096 + b * 256 + c2 * 16 + d), cs3)
              | _, _, _, _ => none
            | _ => none
          else none
        match esc with
        | some (ch, rest) =>
          (parseJsonString fuel rest).map fun p => (String.mk (ch :: p.1.data), p.2)
        | none => none
    else if c.toNat < 32 then none
    else (parseJsonString fuel cs).map fun p => (String.mk (c :: p.1.data), p.2)

/-- Parse a JSON number (grammar `-?(0|[1-9][0-9]*)(.[0-9]+)?([eE][+-]?[0-9]+)?`). -/
def parseJsonNumber (cs : List Char) : Option (ℚ × List Char) :=
  let signed : Bool × List Char :=
    match cs with
    | '-' :: r => (true, r)
    | _ => (false, cs)
  let neg := signed.1
  let intPart : Option (List Nat × List Char) :=
    match signed.2 with
    | [] => none
    | c :: r =>
      match digitVal c with
      | none => none
      | some d =>
        if c = '0' then some ([0], r)
        else some (let p := parseDigits r; (d :: p.1, p.2))
  match intPart with
  | none => none
  | some (ids, cs2) =>
    let fracStep : Option (List Nat × List Char) :=
      match cs2 with
      | '.' :: r =>
        let p := parseDigits r
        if p.1.isEmpty then none else some (p.1, p.2)
      | _ => some ([], cs2)
    match fracStep with
    | none => none
    | some (fds, cs3) =>
      let expStep : Option (Int × List Char) :=
        match cs3 with
        | c :: r =>
          if c = 'e' ∨ c = 'E' then
            let se : Int × List Char :=
              match r with
              | '+' :: r2 => (1, r2)
              | '-' :: r2 => (-1, r2)
              | _ => (1, r)
            let p := parseDigits se.2
            if p.1.isEmpty then none
            else some (se.1 * (digitsToNat p.1 : Int), p.2)
          else some (0, c :: r)
        | [] => some (0, [])
      match expStep with
      | none => none
      | some (ex, cs4) =>
        let mant : Int := (digitsToNat ids : Int) * (10 : Int) ^ fds.length + (digitsToNat fds : Int)
        let mant : Int := if neg then -mant else mant
        let scale : Int := ex - (fds.length : Int)
        some (mkRat (mant * (10 : Int) ^ scale.toNat) ((10 : Nat) ^ (-scale).toNat), cs4)

mutual

/-- Parse one JSON value starting at (whitespace-skipped) input. -/
def parseJsonValue : Nat → List Char → Option (Json × List Char)
  | 0, _ => none
  | fuel + 1, input =>
    match skipWs input with
    | [] => none
    | c :: rest =>
      if c = '"' then
        (parseJsonString fuel rest).map fun p => (Json.str p.1, p.2)
      else if c = 't' then
        match rest with
        | 'r' :: 'u' :: 'e' :: r => some (Json.bool true, r)
        | _ => none
      else if c = 'f' then
        match rest with
        | 'a' :: 'l' :: 's' :: 'e' :: r => some (Json.bool false, r)
        | _ => none
      else if c = 'n' then
        match rest with
        | 'u' :: 'l' :: 'l' :: r => some (Json.null, r)
        | _ => none
      else if c = '[' then
        match skipWs rest with
        | ']' :: r => some (Json.arr [], r)
        | r1 =>
          match parseJsonValue fuel r1 with
          | some (v, r2) =>
            (parseJsonArrayRest fuel r2).map fun p => (Json.arr (v :: p.1), p.2)
          | none => none
      else if c = '\x7b' then
        match skipWs rest with
        | '\x7d' :: r => some (Json.obj [], r)
        | r1 =>
          match parseJsonMember fuel r1 with
          | some (kv, r2) =>
            (parseJsonObjectRest fuel r2).map fun p => (Json.obj (kv :: p.1), p.2)
          | none => none
      else
        (parseJsonNumber (c :: rest)).map fun p => (Json.num p.1, p.2)

/-- Parse the continuation of a JSON array after one element: `,` elem … `]`. -/
def parseJsonArrayRest : Nat → List Char → Option (List Json × List Char)
  | 0, _ => none
  | fuel + 1, input =>
    match skipWs input with
    | ']' :: r => some ([], r)
    | ',' :: r =>
      match parseJsonValue fuel r with
      | some (v, r2) => (parseJsonArrayRest fuel r2).map fun p => (v :: p.1, p.2)
      | none => none
    | _ => none

/-- Parse one `"key" : value` member of a JSON object. -/
def parseJsonMember : Nat → List Char → Option ((String × Json) × List Char)
  | 0, _ => none
  | fuel + 1, input =>
    match skipWs input with
    | '"' :: r =>
      match parseJsonString fuel r with
      | some (k, r2) =>
        match skipWs r2 with
        | ':' :: r3 => (parseJsonValue fuel r3).map fun p => ((k, p.1), p.2)
        | _ => none
      | none => none
    | _ => none

/-- Parse the continuation of a JSON object after one member: `,` member … `}`. -/
def parseJsonObjectRest : Nat → List Char → Option (List (String × Json) × List Char)
  | 0, _ => none
  | fuel + 1, input =>
    match skipWs input with
    | '\x7d' :: r => some ([], r)
    | ',' :: r =>
      match parseJsonMember fuel r with
      | some (kv, r2) => (parseJsonObjectRest fuel r2).map fun p => (kv :: p.1, p.2)
      | none => none
    | _ => none

end

/-- Model of `JSON.parse`: `none` models a thrown `SyntaxError`. -/
def jsonParse (s : String) : Option Json :=
  match parseJsonValue (s.length + 1) s.data with
  | some (v, rest) => if skipWs rest = [] then some v else none
  | none => none

/-! ### JSON printing (model of `JSON.stringify`) -/

def hexDigitChar (n : Nat) : Char :=
  if n < 10 then Char.ofNat (48 + n) else Char.ofNat (87 + n)

def escapeJsonChar (c : Char) : String :=
  if c = '"' then "\\\""
  else if c = '\\' then "\\\\"
  else if c = '\x08' then "\\b"
  else if c = '\x0c' then "\\f"
  else if c = '\n' then "\\n"
  else if c = '\r' then "\\r"
  else if c = '\t' then "\\t"
  else if c.toNat < 32 then
    "\\u00" ++ String.mk [hexDigitChar (c.toNat / 16), hexDigitChar (c.toNat % 16)]
  else String.singleton c

def quoteJsonString (s : String) : String :=
  "\"" ++ String.join (s.data.map escapeJsonChar) ++ "\""

/-- Renders a JSON number.  Integral values render exactly as JavaScript
does; non-integral values (never produced by this development's inputs)
are rendered as `num/den`. -/
def numToString (q : ℚ) : String :=
  if q.den = 1 then toString q.num else toString q.num ++ "/" ++ toString q.den

mutual

def jsonStringify : Json → String
  | Json.null => "null"
  | Json.bool true => "true"
  | Json.bool false => "false"
  | Json.num q => numToString q
  | Json.str s => quoteJsonString s
  | Json.arr xs => "[" ++ stringifyElems xs ++ "]"
  | Json.obj fs => "\x7b" ++ stringifyFields fs ++ "\x7d"

def stringifyElems : List Json → String
  | [] => ""
  | [x] => jsonStringify x
  | x :: xs => jsonStringify x ++ "," ++ stringifyElems xs

def stringifyFields : List (String × Json) → String
  | [] => ""
  | [(k, v)] => quoteJsonString k ++ ":" ++ jsonStringify v
  | (k, v) :: fs => quoteJsonString k ++ ":" ++ jsonStringify v ++ "," ++ stringifyFields fs

end

/-! ### Message translator data model (`provider.ts` lines 127-215)

`ContentPart` is the tagged union of the VS Code content-part classes the
provider inspects.  `ToolResultPart.content` models the VS Code tool-result
content array: each item either carries a `value` property (`some`) or does
not (`none`). -/

inductive ChatRole where
  | User : ChatRole
  | Assistant : ChatRole
  /-- Any role other than `User`/`Assistant` (the converter's `default` case). -/
  | Other : ChatRole
deriving Repr, DecidableEq

inductive ContentPart where
  | text (value : String) : ContentPart
  | toolCall (callId : String) (name : String) (parameters : Json) : ContentPart
  | toolResult (callId : String) (content : List (Option String)) : ContentPart
deriving Repr

inductive MessageContent where
  | str (s : String) : MessageContent
  | parts (ps : List ContentPart) : MessageContent
deriving Repr

structure ChatMessage where
  role : ChatRole
  content : MessageContent
deriving Repr

structure ToolCallEntry where
  id : String
  name : String
  /-- The serialized `arguments` produced by `JSON.stringify(tc.parameters)`. -/
  arguments : String
deriving Repr, DecidableEq

/-- The outbound (OpenAI-wire-shaped) messages the translator produces. -/
inductive OutboundMessage where
  | plain (role : String) (content : String) : OutboundMessage
  | assistantToolCalls (content : String) (tool_calls : List ToolCallEntry) : OutboundMessage
  | toolMsg (tool_call_id : String) (content : String) : OutboundMessage
deriving Repr, DecidableEq

/-- JavaScript whitespace for `String.prototype.trim` (the characters the
inputs of this development can contain). -/
def isJsWs (c : Char) : Bool :=
  c = ' ' || c = '\t' || c = '\n' || c = '\r' || c = '\x0b' || c = '\x0c'

/-- Model of JavaScript `s.trim()`. -/
def jsTrim (s : String) : String :=
  String.mk (((s.data.dropWhile isJsWs).reverse.dropWhile isJsWs).reverse)

/-- `convertRole` (`provider.ts` lines 419-429). -/
def convertRole : ChatRole → String
  | ChatRole.User => "user"
  | ChatRole.Assistant => "assistant"
  | ChatRole.Other => "user"

def ContentPart.textValue : ContentPart → Option String
  | ContentPart.text v => some v
  | _ => none

/-- `part instanceof LanguageModelToolCallPart` (line 137). -/
def ContentPart.isToolCallPart : ContentPart → Bool
  | ContentPart.toolCall _ _ _ => true
  | _ => false

def ContentPart.isToolResultPart : ContentPart → Bool
  | ContentPart.toolResult _ _ => true
  | _ => false

/-- The tool-result detection heuristic (lines 138-145): constructor name
contains `ToolResult` or `ToolCall`, or the part has a `callId` or `result`
property.  Text parts match none of these; tool-call and tool-result parts
both match. -/
def ContentPart.matchesToolResultHeuristic (p : ContentPart) : Bool :=
  p.isToolCallPart || p.isToolResultPart

def toolCallEntry : ContentPart → ToolCallEntry
  | ContentPart.toolCall cid name params => ⟨cid, name, jsonStringify params⟩
  | ContentPart.text v => ⟨"", "", jsonStringify (Json.str v)⟩
  | ContentPart.toolResult cid _ => ⟨cid, "", ""⟩

/-- Tool-result extraction (lines 169-195).  In the VS Code shape the
tool-result `content` is always an array, so the first branch of the
source's extraction applies: keep items whose `value` is defined and join
them with newlines.  The other constructors never reach this function from
`translate` (tool-call parts are intercepted by the earlier branch). -/
def toolResultOutbound : ContentPart → OutboundMessage
  | ContentPart.toolResult cid content =>
    OutboundMessage.toolMsg cid (String.intercalate "\n" (content.filterMap id))
  | ContentPart.toolCall cid name params =>
    OutboundMessage.toolMsg cid
      (jsonStringify (Json.obj [("callId", Json.str cid), ("name", Json.str name), ("parameters", params)]))
  | ContentPart.text v =>
    OutboundMessage.toolMsg "" (jsonStringify (Json.obj [("value", Json.str v)]))

/-- Translation of one chat message (lines 127-215). -/
def translateMessage (msg : ChatMessage) : List OutboundMessage :=
  match msg.content with
  | MessageContent.parts ps =>
    let textParts := String.join (ps.filterMap ContentPart.textValue)
    let toolCalls := ps.filter ContentPart.isToolCallPart
    let toolResults := ps.filter ContentPart.matchesToolResultHeuristic
    if 0 < toolCalls.length then
      [OutboundMessage.assistantToolCalls textParts (toolCalls.map toolCallEntry)]
    else if 0 < toolResults.length then
      toolResults.map toolResultOutbound
    else
      if 0 < (jsTrim textParts).length then
        [OutboundMessage.plain (convertRole msg.role) textParts]
      else []
  | MessageContent.str s =>
    if 0 < (jsTrim s).length then
      [OutboundMessage.plain (convertRole msg.role) s]
    else []

/-- The whole translator loop over the input messages. -/
def translate (messages : List ChatMessage) : List OutboundMessage :=
  messages.flatMap translateMessage

/-! ### Request builder (`provider.ts` lines 224-263) -/

structure ModelInfo where
  id : String
  maxOutputTokens : Int
  toolCalling : Bool
deriving Repr

structure ModelOptions where
  maxTokens : Option Int
  temperature : Option ℚ
deriving Repr

structure ToolSpec where
  name : String
  description : String
  inputSchema : Option Json
deriving Repr

structure Options where
  modelOptions : Option ModelOptions
  tools : List ToolSpec
  toolMode : Int
deriving Repr

/-- JavaScript `v || d` for a possibly-absent number: `0` (and absence)
falls back to the default. -/
def jsOrDefaultInt (v : Option Int) (d : Int) : Int :=
  match v with
  | some x => if x = 0 then d else x
  | none => d

def jsOrDefaultRat (v : Option ℚ) (d : ℚ) : ℚ :=
  match v with
  | some x => if x = 0 then d else x
  | none => d

/-- `max_tokens: Math.min(options.modelOptions?.maxTokens || 4000, model.maxOutputTokens)`
(line 229).  The argument is `options.modelOptions?.maxTokens`. -/
def buildMaxTokens (requested : Option Int) (maxOutputTokens : Int) : Int :=
  min (jsOrDefaultInt requested 4000) maxOutputTokens

/-- `temperature: Math.max(0, Math.min(2, options.modelOptions?.temperature || 0.7))`
(line 230). -/
def buildTemperature (requested : Option ℚ) : ℚ :=
  max 0 (min 2 (jsOrDefaultRat requested (7/10)))

structure OpenAITool where
  name : String
  description : String
  parameters : Json
deriving Repr

structure RequestParams where
  model : String
  messages : List OutboundMessage
  max_tokens : Int
  temperature : ℚ
  tools : Option (List OpenAITool)
  tool_choice : Option String
deriving Repr

/-- Tool conversion (lines 238-253): `parameters: tool.inputSchema || {…}`. -/
def convertTool (t : ToolSpec) : OpenAITool :=
  ⟨t.name, t.description,
    match t.inputSchema with
    | some s => s
    | none => Json.obj [("type", Json.str "object"), ("properties", Json.obj []), ("required", Json.arr [])]⟩

/-- Request construction (lines 225-263): base parameters, plus `tools` and
`tool_choice` only when the model supports tool calling and a non-empty tool
catalog was supplied. -/
def buildRequestParams (model : ModelInfo) (options : Options) (outbound : List OutboundMessage) : RequestParams :=
  let base : RequestParams :=
    { model := model.id
      messages := outbound
      max_tokens := buildMaxTokens (options.modelOptions.bind (·.maxTokens)) model.maxOutputTokens
      temperature := buildTemperature (options.modelOptions.bind (·.temperature))
      tools := none
      tool_choice := none }
  if model.toolCalling ∧ 0 < options.tools.length then
    { base with
      tools := some (options.tools.map convertTool)
      tool_choice := some (if options.toolMode = 2 then "required" else "auto") }
  else base

/-! ### Stream reassembler (`provider.ts` lines 265-356)

A chunk models `chunk.choices?.[0]`: an absent choice or delta is the chunk
with no content, no tool-call fragments and no finish reason.  The
per-index accumulation record `toolCallsInProgress` is modelled as an
association list ordered by ascending index, matching the ascending
integer-key enumeration order of a JavaScript object that
`Object.entries` observes. -/

structure DeltaToolCall where
  /-- `toolCall.index || 0`; the OpenAI delta always carries a number here,
  and `0 || 0 = 0`, so the field is a plain `Nat`. -/
  index : Nat
  id : Option String
  name : Option String
  arguments : Option String
deriving Repr, DecidableEq

structure Delta where
  content : Option String
  tool_calls : List DeltaToolCall
deriving Repr, DecidableEq

structure Chunk where
  delta : Delta
  finish_reason : Option String
deriving Repr, DecidableEq

structure PendingToolCall where
  id : Option String
  name : Option String
  arguments : String
deriving Repr, DecidableEq

/-- One `{index, part}` event reported to the progress sink. -/
inductive Part where
  | text (s : String) : Part
  | toolCall (id : String) (name : String) (args : Json) : Part
deriving Repr

structure Fragment where
  index : Nat
  part : Part
deriving Repr

/-- JavaScript truthiness of a possibly-absent string. -/
def truthyStr : Option String → Bool
  | some s => s ≠ ""
  | none => false

/-- Updates of one pending record by one delta fragment (lines 339-351):
a truthy `id` overwrites, a truthy `name` overwrites, truthy `arguments`
text is appended. -/
def applyFragment (tc : DeltaToolCall) (p : PendingToolCall) : PendingToolCall :=
  let p := if truthyStr tc.id then { p with id := tc.id } else p
  let p := if truthyStr tc.name then { p with name := tc.name } else p
  let p := match tc.arguments with
    | some s => if s = "" then p else { p with arguments := p.arguments ++ s }
    | none => p
  p

/-- Insert-or-update into the index-ordered pending table (lines 334-337):
a missing index is initialised to `{ arguments: '' }` before the update. -/
def setPending (m : List (Nat × PendingToolCall)) (k : Nat) (f : PendingToolCall → PendingToolCall) :
    List (Nat × PendingToolCall) :=
  match m with
  | [] => [(k, f ⟨none, none, ""⟩)]
  | (k', p) :: rest =>
    if k < k' then (k, f ⟨none, none, ""⟩) :: (k', p) :: rest
    else if k = k' then (k, f p) :: rest
    else (k', p) :: setPending rest k f

/-- The `for (const toolCall of delta.tool_calls)` loop (lines 330-352). -/
def applyDeltas (m : List (Nat × PendingToolCall)) (tcs : List DeltaToolCall) :
    List (Nat × PendingToolCall) :=
  tcs.foldl (fun m tc => setPending m tc.index (applyFragment tc)) m

/-- Events produced for one pending record at the `tool_calls` finish
(lines 296-324): when id, name and arguments are all truthy, a completed
tool call on parse success, a literal text fallback on parse failure;
otherwise nothing. -/
def emitFinished (k : Nat) (p : PendingToolCall) : List Fragment :=
  match p.id, p.name with
  | some i, some n =>
    if i ≠ "" ∧ n ≠ "" ∧ p.arguments ≠ "" then
      match jsonParse p.arguments with
      | some v => [⟨k, Part.toolCall i n v⟩]
      | none => [⟨k, Part.text ("[Tool Call: " ++ n ++ "(" ++ p.arguments ++ ")]")⟩]
    else []
  | _, _ => []

/-- Draining the pending table at the `tool_calls` finish, in ascending
index order (lines 296-324). -/
def drainPending (m : List (Nat × PendingToolCall)) : List Fragment :=
  m.flatMap fun e => emitFinished e.1 e.2

/-- The text-content emission of one chunk (lines 281-286). -/
def chunkText (c : Chunk) : List Fragment :=
  match c.delta.content with
  | some s => if s = "" then [] else [⟨0, Part.text s⟩]
  | none => []

/-- JavaScript truthiness of `choice?.finish_reason`. -/
def finishTruthy : Option String → Option String
  | some r => if r = "" then none else some r
  | none => none

/-- The cancellation token, modelled by the check number (1-based chunk
count) from which `isCancellationRequested` reads true; `none` means the
token never fires.  This captures any monotone token. -/
def cancelRequested (cancelAt : Option Nat) (count : Nat) : Bool :=
  match cancelAt with
  | some k => k ≤ count
  | none => false

/-- The `for await (const chunk of stream)` loop (lines 271-354).  Returns
the reported fragments together with `true` iff the loop consumed the whole
chunk list without `break` (in which case a fault pending at the end of the
stream would still be raised). -/
def runLoop (cancelAt : Option Nat) : Nat → List (Nat × PendingToolCall) → List Chunk →
    List Fragment × Bool
  | _, _, [] => ([], true)
  | count, m, c :: rest =>
    if cancelRequested cancelAt (count + 1) then ([], false)
    else
      let textOut := chunkText c
      match finishTruthy c.finish_reason with
      | some r => (textOut ++ (if r = "tool_calls" then drainPending m else []), false)
      | none =>
        let next := runLoop cancelAt (count + 1) (applyDeltas m c.delta.tool_calls) rest
        (textOut ++ next.1, next.2)

/-! ### Error reporter (`provider.ts` lines 357-416) -/

/-- The thrown value the catch block receives: either an `Error` instance
(with constructor name, message and optional `status`/`code`/`type`
properties) or a non-`Error` value (carried as its `JSON.stringify`
rendering). -/
inductive ErrorInfo where
  | err (ctorName : String) (message : String) (status : Option Int)
      (code : Option String) (etype : Option String) : ErrorInfo
  | nonError (stringified : String) : ErrorInfo
deriving Repr

def startsWithChars : List Char → List Char → Bool
  | [], _ => true
  | _ :: _, [] => false
  | a :: as, b :: bs => a = b && startsWithChars as bs

def charsInfix (pat : List Char) : List Char → Bool
  | [] => startsWithChars pat []
  | c :: cs => startsWithChars pat (c :: cs) || charsInfix pat cs

/-- `errorMessage.includes(pat)`. -/
def strIncludes (s pat : String) : Bool :=
  charsInfix pat.data s.data

/-- The single text part the catch block reports (lines 363-415). -/
def errorReportText (e : ErrorInfo) : String :=
  match e with
  | ErrorInfo.nonError s =>
    "Error calling v0.dev API: Unknown error occurred" ++
      "\n\nDebug info:\n- Non-Error object: " ++ s
  | ErrorInfo.err ctorName message status code etype =>
    let debugInfo := "\n\nDebug info:\n- Error type: " ++ ctorName ++ "\n- Message: " ++ message
    let debugInfo := match status with
      | some st => debugInfo ++ "\n- HTTP Status: " ++ toString st
      | none => debugInfo
    let debugInfo := match code with
      | some c => debugInfo ++ "\n- Error Code: " ++ c
      | none => debugInfo
    let debugInfo := match etype with
      | some t => debugInfo ++ "\n- Type: " ++ t
      | none => debugInfo
    let errorMessage :=
      if strIncludes message "401" || strIncludes message "Unauthorized" then
        "❌ Invalid API key. Please check your v0.dev API key and try again.\n\nGet your API key at: https://v0.dev/chat/settings/keys"
      else if strIncludes message "403" || strIncludes message "Forbidden" then
        "❌ Access denied. Please check your API key permissions or account status."
      else if strIncludes message "429" || strIncludes message "rate limit" then
        "❌ Rate limit exceeded. Please wait a moment and try again."
      else if strIncludes message "500" || strIncludes message "Internal Server Error" then
        "❌ v0.dev service error. Please try again later."
      else if strIncludes message "network" || strIncludes message "fetch" then
        "❌ Network error. Please check your internet connection and try again."
      else message
    "Error calling v0.dev API: " ++ errorMessage ++ debugInfo

/-! ### The chat-response entry point (`provider.ts` lines 98-417) -/

/-- The message reported when no client could be constructed (lines 108-120). -/
def missingKeyText : String :=
  "❌ v0.dev API client not initialized.\n\n" ++
  "Please set your API key:\n" ++
  "• Set V0_API_KEY environment variable, or\n" ++
  "• Configure \x27v0dev.apiKey\x27 in VS Code settings\n\n" ++
  "Get your API key at: https://v0.dev/chat/settings/keys"

def noValidMessagesText : String :=
  "Error: No valid messages to process."

/-- `getApiKey` (lines 69-87): the environment variable wins when truthy,
then the workspace setting when truthy, else no key. -/
def getApiKey (envKey configKey : Option String) : Option String :=
  if truthyStr envKey then envKey
  else if truthyStr configKey then configKey
  else none

/-- What the awaited upstream exchange delivers: either the `create` call
itself rejects, or it yields a chunk list, optionally followed by a fault
raised when the iterator is pulled past the final chunk. -/
structure StreamData where
  chunks : List Chunk
  trailingError : Option ErrorInfo
deriving Repr

/-- `provideLanguageModelChatResponse` (lines 98-417), as a function from
the request and the modelled external world (resolved credential sources
and the upstream exchange) to the list of fragments reported on the
progress sink.  The function is total: no failure escapes it. -/
def provideLanguageModelChatResponse (model : ModelInfo) (messages : List ChatMessage)
    (options : Options) (envKey configKey : Option String)
    (create : RequestParams → Except ErrorInfo StreamData) (cancelAt : Option Nat) :
    List Fragment :=
  match getApiKey envKey configKey with
  | none => [⟨0, Part.text missingKeyText⟩]
  | some _ =>
    let openaiMessages := translate messages
    if openaiMessages.length = 0 then [⟨0, Part.text noValidMessagesText⟩]
    else
      match create (buildRequestParams model options openaiMessages) with
      | Except.error e => [⟨0, Part.text (errorReportText e)⟩]
      | Except.ok sd =>
        let res := runLoop cancelAt 0 [] sd.chunks
        if res.2 then
          match sd.trailingError with
          | some e => res.1 ++ [⟨0, Part.text (errorReportText e)⟩]
          | none => res.1
        else res.1

/-! ### Derived notions used by the statements -/

/-- The pending table's keys are strictly ascending (the enumeration-order
invariant of the JavaScript integer-keyed record). -/
def SortedKeys (m : List (Nat × PendingToolCall)) : Prop :=
  m.Pairwise (fun a b => a.1 < b.1)

/-- The text fragments a chunk list emits during accumulation. -/
def textFrags (cs : List Chunk) : List Fragment :=
  cs.flatMap chunkText

/-- The pending table accumulated over a chunk list (no finish processed). -/
def accumMap (m : List (Nat × PendingToolCall)) (cs : List Chunk) :
    List (Nat × PendingToolCall) :=
  cs.foldl (fun m c => applyDeltas m c.delta.tool_calls) m

/-- The completed-tool-call events of a fragment list, with their payloads. -/
def toolCallFrags (fs : List Fragment) : List (Nat × String × String × Json) :=
  fs.filterMap fun f =>
    match f.part with
    | Part.toolCall i n a => some (f.index, i, n, a)
    | Part.text _ => none

/-! ### Lemmas about the pending table -/

theorem setPending_keys {m : List (Nat × PendingToolCall)} {k : Nat}
    {f : PendingToolCall → PendingToolCall} :
    ∀ e ∈ setPending m k f, e.1 = k ∨ ∃ q, (e.1, q) ∈ m := by
  induction m with
  | nil =>
    intro e he
    simp [setPending] at he
    simp [he]
  | cons hd rest ih =>
    obtain ⟨k', p⟩ := hd
    intro e he
    by_cases h1 : k < k'
    · simp only [setPending, if_pos h1, List.mem_cons] at he
      rcases he with he | he | he
      · simp [he]
      · exact Or.inr ⟨p, by simp [he]⟩
      · exact Or.inr ⟨e.2, by rw [List.mem_cons]; right; exact he⟩
    · by_cases h2 : k = k'
      · simp only [setPending, if_neg h1, if_pos h2, List.mem_cons] at he
        rcases he with he | he
        · simp [he, h2]
        · exact Or.inr ⟨e.2, by rw [List.mem_cons]; right; exact he⟩
      · simp only [setPending, if_neg h1, if_neg h2, List.mem_cons] at he
        rcases he with he | he
        · exact Or.inr ⟨p, by simp [he]⟩
        · rcases ih e he with h' | ⟨q, hq⟩
          · exact Or.inl h'
          · exact Or.inr ⟨q, by rw [List.mem_cons]; right; exact hq⟩

theorem setPending_sorted {m : List (Nat × PendingToolCall)} {k : Nat}
    {f : PendingToolCall → PendingToolCall}
    (hs : SortedKeys m) : SortedKeys (setPending m k f) := by
  induction m with
  | nil => simp [SortedKeys, setPending]
  | cons hd rest ih =>
    obtain ⟨k', p⟩ := hd
    rw [SortedKeys, List.pairwise_cons] at hs
    obtain ⟨hhead, htail⟩ := hs
    by_cases h1 : k < k'
    · rw [SortedKeys, setPending, if_pos h1, List.pairwise_cons]
      constructor
      · intro e he
        rw [List.mem_cons] at he
        rcases he with he | he
        · simp [he]
          omega
        · have := hhead e he
          simp only
          omega
      · rw [List.pairwise_cons]
        exact ⟨hhead, htail⟩
    · by_cases h2 : k = k'
      · subst h2
        rw [SortedKeys, setPending, if_neg h1, if_pos rfl, List.pairwise_cons]
        exact ⟨hhead, htail⟩
      · rw [SortedKeys, setPending, if_neg h1, if_neg h2, List.pairwise_cons]
        constructor
        · intro e he
          rcases setPending_keys e he with h' | ⟨q, hq⟩
          · simp only [h']
            omega
          · have := hhead (e.1, q) hq
            simpa using this
        · exact ih htail

theorem applyDeltas_sorted {m : List (Nat × PendingToolCall)} {tcs : List DeltaToolCall}
    (hs : SortedKeys m) : SortedKeys (applyDeltas m tcs) := by
  induction tcs generalizing m with
  | nil => simpa [applyDeltas] using hs
  | cons tc rest ih =>
    simpa [applyDeltas] using ih (setPending_sorted hs)

theorem accumMap_sorted {m : List (Nat × PendingToolCall)} {cs : List Chunk}
    (hs : SortedKeys m) : SortedKeys (accumMap m cs) := by
  induction cs generalizing m with
  | nil => simpa [accumMap] using hs
  | cons c rest ih =>
    simpa [accumMap] using ih (applyDeltas_sorted hs)

theorem emitFinished_index {k : Nat} {p : PendingToolCall} :
    ∀ f ∈ emitFinished k p, f.index = k := by
  intro f hf
  obtain ⟨pid, pname, pargs⟩ := p
  rcases pid with _ | i
  · simp [emitFinished] at hf
  rcases pname with _ | n
  · simp [emitFinished] at hf
  by_cases hc : i ≠ "" ∧ n ≠ "" ∧ pargs ≠ ""
  · rcases hj : jsonParse pargs with _ | v
    · simp only [emitFinished, if_pos hc, hj, List.mem_singleton] at hf
      simp [hf]
    · simp only [emitFinished, if_pos hc, hj, List.mem_singleton] at hf
      simp [hf]
  · simp [emitFinished, hc] at hf

theorem drainPending_index {m : List (Nat × PendingToolCall)} :
    ∀ f ∈ drainPending m, ∃ q, (f.index, q) ∈ m := by
  intro f hf
  unfold drainPending at hf
  rw [List.mem_flatMap] at hf
  obtain ⟨e, he, hfe⟩ := hf
  refine ⟨e.2, ?_⟩
  rw [emitFinished_index f hfe]
  exact he

theorem drain_filter_none {m : List (Nat × PendingToolCall)} {i : Nat}
    (h : ∀ e ∈ m, e.1 ≠ i) :
    (drainPending m).filter (fun f => f.index == i) = [] := by
  rw [List.filter_eq_nil_iff]
  intro f hf
  obtain ⟨q, hq⟩ := drainPending_index f hf
  have := h _ hq
  simp at this
  simp [this]

theorem emitFinished_filter_self {k : Nat} {p : PendingToolCall} :
    (emitFinished k p).filter (fun f => f.index == k) = emitFinished k p := by
  rw [List.filter_eq_self]
  intro f hf
  simp [emitFinished_index f hf]

theorem drain_filter_eq {m : List (Nat × PendingToolCall)} {i : Nat} {p : PendingToolCall}
    (hs : SortedKeys m) (hl : m.lookup i = some p) :
    (drainPending m).filter (fun f => f.index == i) = emitFinished i p := by
  induction m with
  | nil => simp [List.lookup] at hl
  | cons e rest ih =>
    obtain ⟨k, q⟩ := e
    rw [SortedKeys, List.pairwise_cons] at hs
    obtain ⟨hhead, htail⟩ := hs
    have hdrain : drainPending ((k, q) :: rest) = emitFinished k q ++ drainPending rest := by
      simp [drainPending]
    by_cases hik : i = k
    · subst hik
      simp only [List.lookup, beq_self_eq_true, Option.some.injEq] at hl
      subst hl
      rw [hdrain, List.filter_append, emitFinished_filter_self, drain_filter_none, List.append_nil]
      intro e he
      have := hhead e he
      simp only at this
      omega
    · have hbeq : (i == k) = false := beq_false_of_ne hik
      simp only [List.lookup, hbeq] at hl
      rw [hdrain, List.filter_append, ih htail hl]
      have hemit : (emitFinished k q).filter (fun f => f.index == i) = [] := by
        rw [List.filter_eq_nil_iff]
        intro f hf
        have := emitFinished_index f hf
        simp [this, hik, Ne.symm hik]
      rw [hemit, List.nil_append]

/-! ### Lemmas about the fragments a stream emits -/

theorem toolCallFrags_append (a b : List Fragment) :
    toolCallFrags (a ++ b) = toolCallFrags a ++ toolCallFrags b := by
  simp [toolCallFrags, List.filterMap_append]

theorem toolCallFrags_chunkText (c : Chunk) : toolCallFrags (chunkText c) = [] := by
  unfold chunkText
  rcases c.delta.content with _ | s
  · simp [toolCallFrags]
  · by_cases hs : s = "" <;> simp [hs, toolCallFrags]

theorem toolCallFrags_textFrags (cs : List Chunk) : toolCallFrags (textFrags cs) = [] := by
  induction cs with
  | nil => simp [textFrags, toolCallFrags]
  | cons c rest ih =>
    have : textFrags (c :: rest) = chunkText c ++ textFrags rest := by simp [textFrags]
    rw [this, toolCallFrags_append, toolCallFrags_chunkText, ih]
    rfl

theorem emitFinished_cases (k : Nat) (p : PendingToolCall) :
    emitFinished k p = [] ∨ ∃ f, emitFinished k p = [f] := by
  obtain ⟨pid, pname, pargs⟩ := p
  rcases pid with _ | i
  · left; simp [emitFinished]
  rcases pname with _ | n
  · left; simp [emitFinished]
  by_cases hc : i ≠ "" ∧ n ≠ "" ∧ pargs ≠ ""
  · rcases hj : jsonParse pargs with _ | v
    · right
      exact ⟨⟨k, Part.text ("[Tool Call: " ++ n ++ "(" ++ pargs ++ ")]")⟩,
        by simp [emitFinished, if_pos hc, hj]⟩
    · right
      exact ⟨⟨k, Part.toolCall i n v⟩, by simp [emitFinished, if_pos hc, hj]⟩
  · left; simp [emitFinished, hc]

theorem toolCallFrags_emitFinished_mem {k : Nat} {p : PendingToolCall} :
    ∀ e ∈ toolCallFrags (emitFinished k p), e.1 = k := by
  intro e he
  rw [toolCallFrags, List.mem_filterMap] at he
  obtain ⟨f, hf, hg⟩ := he
  have hidx := emitFinished_index f hf
  rcases hpart : f.part with s | ⟨i, n, a⟩ <;> rw [hpart] at hg
  · simp at hg
  · simp only [Option.some.injEq] at hg
    rw [← hg]
    exact hidx

theorem toolCallFrags_drain_mem {m : List (Nat × PendingToolCall)} :
    ∀ e ∈ toolCallFrags (drainPending m), ∃ q, (e.1, q) ∈ m := by
  intro e he
  rw [toolCallFrags, List.mem_filterMap] at he
  obtain ⟨f, hf, hg⟩ := he
  obtain ⟨q, hq⟩ := drainPending_index f hf
  refine ⟨q, ?_⟩
  rcases hpart : f.part with s | ⟨i, n, a⟩ <;> rw [hpart] at hg
  · simp at hg
  · simp only [Option.some.injEq] at hg
    rw [← hg]
    exact hq

/-- Completed tool-call events appear in ascending tool-index order. -/
theorem toolCallFrags_drain_sorted {m : List (Nat × PendingToolCall)} (hs : SortedKeys m) :
    (toolCallFrags (drainPending m)).Pairwise (fun a b => a.1 < b.1) := by
  induction m with
  | nil => simp [drainPending, toolCallFrags]
  | cons e rest ih =>
    obtain ⟨k, q⟩ := e
    rw [SortedKeys, List.pairwise_cons] at hs
    obtain ⟨hhead, htail⟩ := hs
    have hdrain : drainPending ((k, q) :: rest) = emitFinished k q ++ drainPending rest := by
      simp [drainPending]
    rw [hdrain, toolCallFrags_append, List.pairwise_append]
    refine ⟨?_, ih htail, ?_⟩
    · rcases emitFinished_cases k q with hcase | ⟨f, hcase⟩
      · simp [hcase, toolCallFrags]
      · rw [hcase]
        rcases hpart : f.part with s | ⟨i, n, a⟩ <;> simp [toolCallFrags, hpart]
    · intro a ha b hb
      have hak := toolCallFrags_emitFinished_mem a ha
      obtain ⟨q', hq'⟩ := toolCallFrags_drain_mem b hb
      have := hhead (b.1, q') hq'
      simp only at this
      omega

/-- Decomposition of the loop over a finish-terminated stream, with no
cancellation: the body's text fragments, then the finish chunk's text,
then (for a `tool_calls` finish) the drained pending table. -/
theorem runLoop_body_fin {fin : Chunk} {r : String}
    (hfin : finishTruthy fin.finish_reason = some r) :
    ∀ (body : List Chunk) (count : Nat) (m : List (Nat × PendingToolCall)),
    (∀ c ∈ body, finishTruthy c.finish_reason = none) →
    runLoop none count m (body ++ [fin]) =
      (textFrags body ++ chunkText fin ++
        (if r = "tool_calls" then drainPending (accumMap m body) else []), false) := by
  intro body
  induction body with
  | nil =>
    intro count m _
    simp [runLoop, cancelRequested, hfin, textFrags, accumMap]
  | cons c rest ih =>
    intro count m hnf
    have hc : finishTruthy c.finish_reason = none := hnf c (by simp)
    have hacc : accumMap m (c :: rest) = accumMap (applyDeltas m c.delta.tool_calls) rest := by
      simp [accumMap]
    simp only [List.cons_append, runLoop, cancelRequested, Bool.false_eq_true, if_false, hc,
      List.append_eq]
    rw [ih (count + 1) _ (fun c' hc' => hnf c' (List.mem_cons_of_mem _ hc'))]
    have htf : textFrags (c :: rest) = chunkText c ++ textFrags rest := by simp [textFrags]
    simp [htf, hacc, List.append_assoc]

/-- The loop under a cancellation that fires at check `k`: only the chunks
strictly before the `k`-th check are processed, and (provided no finish
chunk appears among them) only their text fragments are emitted. -/
theorem runLoop_cancelled {k : Nat} :
    ∀ (chunks : List Chunk) (count : Nat) (m : List (Nat × PendingToolCall)),
    (∀ c ∈ chunks.take (k - 1 - count), finishTruthy c.finish_reason = none) →
    (runLoop (some k) count m chunks).1 = textFrags (chunks.take (k - 1 - count)) := by
  intro chunks
  induction chunks with
  | nil =>
    intro count m _
    simp [runLoop, textFrags]
  | cons c rest ih =>
    intro count m hnf
    by_cases hcan : k ≤ count + 1
    · have htake : k - 1 - count = 0 := by omega
      have hcr : cancelRequested (some k) (count + 1) = true := by
        simp [cancelRequested]; omega
      simp [runLoop, hcr, htake, textFrags]
    · have hcr : cancelRequested (some k) (count + 1) = false := by
        simp [cancelRequested]; omega
      have htake : k - 1 - count = (k - 1 - (count + 1)) + 1 := by omega
      have hc : finishTruthy c.finish_reason = none := by
        apply hnf
        rw [htake, List.take_succ_cons]
        simp
      have hnf' : ∀ c' ∈ rest.take (k - 1 - (count + 1)), finishTruthy c'.finish_reason = none := by
        intro c' hc'
        apply hnf
        rw [htake, List.take_succ_cons]
        simp [hc']
      simp only [runLoop, hcr, Bool.false_eq_true, if_false, hc]
      rw [htake, List.take_succ_cons]
      have htf : textFrags (c :: rest.take (k - 1 - (count + 1))) =
          chunkText c ++ textFrags (rest.take (k - 1 - (count + 1))) := by simp [textFrags]
      rw [htf, ← ih (count + 1) _ hnf']

/-! ### Claim C3: temperature construction -/

/-- C3 counterexample: the claim states that a requested temperature of `0`
yields `0`; the code's `temperature || 0.7` treats `0` as falsy, so a
requested temperature of `0` yields `0.7`, not `0`. -/
theorem C3_counterexample : buildTemperature (some 0) = 7 / 10 ∧ (7 / 10 : ℚ) ≠ 0 := by
  constructor
  · norm_num [buildTemperature, jsOrDefaultRat, min_def, max_def]
  · norm_num

/-- C3 (amended): the built temperature is `clamp(requested, 0, 2)` where a
requested temperature that is absent or `0` falls back to `0.7` (JavaScript
`||` treats `0` as falsy): absent yields `0.7`, `0` yields `0.7`, `5`
yields `2`, `-1` yields `0`. -/
theorem C3_temperature_clamp (t : ℚ) (ht : t ≠ 0) :
    buildTemperature none = 7 / 10 ∧
    buildTemperature (some 0) = 7 / 10 ∧
    buildTemperature (some t) = max 0 (min 2 t) ∧
    buildTemperature (some 5) = 2 ∧
    buildTemperature (some (-1)) = 0 := by
  refine ⟨?_, ?_, ?_, ?_, ?_⟩
  · norm_num [buildTemperature, jsOrDefaultRat, min_def, max_def]
  · norm_num [buildTemperature, jsOrDefaultRat, min_def, max_def]
  · simp [buildTemperature, jsOrDefaultRat, ht]
  · norm_num [buildTemperature, jsOrDefaultRat, min_def, max_def]
  · norm_num [buildTemperature, jsOrDefaultRat, min_def, max_def]

/-- C3 witness: the amended claim at the concrete requested temperature `5`. -/
theorem C3_witness :
    (5 : ℚ) ≠ 0 ∧
    (buildTemperature none = 7 / 10 ∧
      buildTemperature (some 0) = 7 / 10 ∧
      buildTemperature (some 5) = max 0 (min 2 5) ∧
      buildTemperature (some 5) = 2 ∧
      buildTemperature (some (-1)) = 0) :=
  ⟨by simp, C3_temperature_clamp 5 (by simp)⟩

/-! ### Claim C4: max_tokens construction -/

/-- C4 counterexample: the claim states that a requested value of `0` yields
`0`; the code's `maxTokens || 4000` treats `0` as falsy, so a requested
value of `0` (with cap 64000) yields `4000`, not `0`. -/
theorem C4_counterexample : buildMaxTokens (some 0) 64000 = 4000 ∧ (4000 : Int) ≠ 0 := by
  constructor
  · decide
  · decide

/-- C4 (amended): the built `max_tokens` is `min(requested, model.maxOutputTokens)`
where a requested value that is absent or `0` falls back to `4000`
(JavaScript `||` treats `0` as falsy): absent yields `min 4000 cap`, `0`
yields `min 4000 cap`, and `999999` with cap `64000` yields `64000`. -/
theorem C4_max_tokens_min (r cap : Int) (hr : r ≠ 0) :
    buildMaxTokens none cap = min 4000 cap ∧
    buildMaxTokens (some 0) cap = min 4000 cap ∧
    buildMaxTokens (some r) cap = min r cap ∧
    buildMaxTokens (some 999999) 64000 = 64000 := by
  refine ⟨?_, ?_, ?_, ?_⟩
  · simp [buildMaxTokens, jsOrDefaultInt]
  · simp [buildMaxTokens, jsOrDefaultInt]
  · simp [buildMaxTokens, jsOrDefaultInt, hr]
  · decide

/-- C4 witness: the amended claim at the concrete requested value `999999`
and cap `64000`. -/
theorem C4_witness :
    (999999 : Int) ≠ 0 ∧
    (buildMaxTokens none 64000 = min 4000 64000 ∧
      buildMaxTokens (some 0) 64000 = min 4000 64000 ∧
      buildMaxTokens (some 999999) 64000 = min 999999 64000 ∧
      buildMaxTokens (some 999999) 64000 = 64000) :=
  ⟨by decide, C4_max_tokens_min 999999 64000 (by decide)⟩

/-! ### Claim C6: single-text-message translation -/

/-- C6 counterexample: the claim states the emitted content equals the
trimmed text; the code pushes the original, untrimmed content (trimming is
used only for the emptiness test), so the message `" hi "` is emitted with
content `" hi "`, not `"hi"`. -/
theorem C6_counterexample :
    translateMessage ⟨ChatRole.User, MessageContent.str " hi "⟩ =
      [OutboundMessage.plain "user" " hi "] ∧
    OutboundMessage.plain "user" " hi " ≠ OutboundMessage.plain "user" "hi" := by
  constructor
  · rfl
  · decide

/-- C6 (amended): for a single-text-value message with non-whitespace
characters, `translate` emits exactly one outbound message whose role is the
mapped source role (`User→user`, `Assistant→assistant`, anything
else→`user`) and whose content equals the original (untrimmed) text;
empty or whitespace-only text contributes no message. -/
theorem C6_single_text_translation (role : ChatRole) (s : String) :
    (jsTrim s ≠ "" → translateMessage ⟨role, MessageContent.str s⟩ =
      [OutboundMessage.plain (convertRole role) s]) ∧
    (jsTrim s = "" → translateMessage ⟨role, MessageContent.str s⟩ = []) ∧
    convertRole ChatRole.User = "user" ∧
    convertRole ChatRole.Assistant = "assistant" ∧
    convertRole ChatRole.Other = "user" := by
  have hempty : ∀ t : String, t.length = 0 → t = "" := by
    intro t ht
    cases t with
    | mk data =>
      cases data with
      | nil => rfl
      | cons c cs => simp [String.length] at ht
  refine ⟨?_, ?_, rfl, rfl, rfl⟩
  · intro h
    have hlen : 0 < (jsTrim s).length := by
      rcases Nat.eq_zero_or_pos (jsTrim s).length with h0 | h0
      · exact absurd (hempty _ h0) h
      · exact h0
    unfold translateMessage
    dsimp only
    rw [if_pos hlen]
  · intro h
    have hlen : ¬ 0 < (jsTrim s).length := by
      rw [h]
      simp [String.length]
    unfold translateMessage
    dsimp only
    rw [if_neg hlen]

/-- C6 witness: the amended claim at role `User` and text `" hi "`. -/
theorem C6_witness :
    jsTrim " hi " ≠ "" ∧
    translateMessage ⟨ChatRole.User, MessageContent.str " hi "⟩ =
      [OutboundMessage.plain (convertRole ChatRole.User) " hi "] :=
  ⟨by decide, (C6_single_text_translation ChatRole.User " hi ").1 (by decide)⟩

/-! ### Claim C7: tool-call parts take priority over tool-result parts -/

def OutboundMessage.isToolRole : OutboundMessage → Bool
  | OutboundMessage.toolMsg _ _ => true
  | _ => false

/-- C7: a part-sequence message containing at least one tool-call part and at
least one tool-result part translates to exactly one assistant message
carrying the tool_calls array and the concatenated text parts, and to no
tool-role messages. -/
theorem C7_tool_call_priority (role : ChatRole) (ps : List ContentPart)
    (h1 : ∃ p ∈ ps, p.isToolCallPart = true) (_h2 : ∃ p ∈ ps, p.isToolResultPart = true) :
    translateMessage ⟨role, MessageContent.parts ps⟩ =
      [OutboundMessage.assistantToolCalls (String.join (ps.filterMap ContentPart.textValue))
        ((ps.filter ContentPart.isToolCallPart).map toolCallEntry)] ∧
    ∀ om ∈ translateMessage ⟨role, MessageContent.parts ps⟩, om.isToolRole = false := by
  obtain ⟨p, hp, hpc⟩ := h1
  have hmem : p ∈ ps.filter ContentPart.isToolCallPart := List.mem_filter.mpr ⟨hp, hpc⟩
  have hlen : 0 < (ps.filter ContentPart.isToolCallPart).length :=
    List.length_pos.mpr (List.ne_nil_of_mem hmem)
  have heq : translateMessage ⟨role, MessageContent.parts ps⟩ =
      [OutboundMessage.assistantToolCalls (String.join (ps.filterMap ContentPart.textValue))
        ((ps.filter ContentPart.isToolCallPart).map toolCallEntry)] := by
    simp [translateMessage, hlen]
  refine ⟨heq, ?_⟩
  intro om hom
  rw [heq] at hom
  simp at hom
  simp [hom, OutboundMessage.isToolRole]

/-- C7 witness: a message with one tool-call part, one tool-result part and
one text part translates to a single assistant message. -/
theorem C7_witness :
    translateMessage ⟨ChatRole.User, MessageContent.parts
      [ContentPart.toolCall "c1" "f" (Json.obj []),
       ContentPart.toolResult "c1" [some "res"],
       ContentPart.text "T"]⟩ =
    [OutboundMessage.assistantToolCalls "T" [⟨"c1", "f", "\x7b\x7d"⟩]] :=
  ((C7_tool_call_priority ChatRole.User
      [ContentPart.toolCall "c1" "f" (Json.obj []),
       ContentPart.toolResult "c1" [some "res"],
       ContentPart.text "T"]
      ⟨ContentPart.toolCall "c1" "f" (Json.obj []), by simp, rfl⟩
      ⟨ContentPart.toolResult "c1" [some "res"], by simp, rfl⟩).1).trans (by rfl)

/-! ### Claim C8: incomplete pending tool calls are silently dropped -/

theorem emitFinished_incomplete {k : Nat} {p : PendingToolCall}
    (hbad : p.id = none ∨ p.name = none ∨ p.arguments = "") :
    emitFinished k p = [] := by
  obtain ⟨pid, pname, pargs⟩ := p
  rcases pid with _ | i
  · simp [emitFinished]
  rcases pname with _ | n
  · simp [emitFinished]
  rcases hbad with hbad | hbad | hbad
  · exact absurd hbad (by simp)
  · exact absurd hbad (by simp)
  · have hargs : pargs = "" := hbad
    simp [emitFinished, hargs]

theorem drain_erase_missing {m : List (Nat × PendingToolCall)} {i : Nat}
    (hs : SortedKeys m) (h : ∀ p, (i, p) ∈ m → emitFinished i p = []) :
    drainPending m = drainPending (m.filter (fun e => !(e.1 == i))) := by
  induction m with
  | nil => rfl
  | cons e rest ih =>
    obtain ⟨k, q⟩ := e
    rw [SortedKeys, List.pairwise_cons] at hs
    obtain ⟨hhead, htail⟩ := hs
    have hdrain : drainPending ((k, q) :: rest) = emitFinished k q ++ drainPending rest := by
      simp [drainPending]
    by_cases hk : k = i
    · subst hk
      have hq : emitFinished k q = [] := h q (by simp)
      have hfk : (fun e : Nat × PendingToolCall => !(e.1 == k)) (k, q) = false := by simp
      have hrest : rest.filter (fun e => !(e.1 == k)) = rest := by
        rw [List.filter_eq_self]
        intro e he
        have := hhead e he
        simp only at this
        simp
        omega
      rw [hdrain, hq, List.nil_append, List.filter_cons_of_neg (by simp [hfk]), hrest]
    · have hfk : (k == i) = false := beq_false_of_ne hk
      rw [hdrain, List.filter_cons_of_pos (by simp [hfk])]
      have hdrain2 : drainPending ((k, q) :: rest.filter (fun e => !(e.1 == i))) =
          emitFinished k q ++ drainPending (rest.filter (fun e => !(e.1 == i))) := by
        simp [drainPending]
      rw [hdrain2, ih htail (fun p hp => h p (List.mem_cons_of_mem _ hp))]

theorem lookup_of_mem_sorted {m : List (Nat × PendingToolCall)} {i : Nat} {q : PendingToolCall}
    (hs : SortedKeys m) (hq : (i, q) ∈ m) : m.lookup i = some q := by
  induction m with
  | nil => cases hq
  | cons e rest ih =>
    obtain ⟨k, q'⟩ := e
    rw [SortedKeys, List.pairwise_cons] at hs
    obtain ⟨hhead, htail⟩ := hs
    rcases List.mem_cons.mp hq with hq' | hq'
    · rw [Prod.mk.injEq] at hq'
      obtain ⟨h1, h2⟩ := hq'
      subst h1
      subst h2
      simp [List.lookup]
    · have hik : i ≠ k := by
        have := hhead _ hq'
        simp only at this
        omega
      simp only [List.lookup, beq_false_of_ne hik]
      exact ih htail hq'

/-- C8: a pending tool call that at the `tool_calls` finish is missing its
id, its name, or has an empty arguments buffer produces zero events for its
index, and the remaining pending calls are drained exactly as if the
incomplete entry were absent. -/
theorem C8_incomplete_dropped (m : List (Nat × PendingToolCall)) (i : Nat) (p : PendingToolCall)
    (hs : SortedKeys m) (hl : m.lookup i = some p)
    (hbad : p.id = none ∨ p.name = none ∨ p.arguments = "") :
    (drainPending m).filter (fun f => f.index == i) = [] ∧
    drainPending m = drainPending (m.filter (fun e => !(e.1 == i))) := by
  constructor
  · rw [drain_filter_eq hs hl, emitFinished_incomplete hbad]
  · apply drain_erase_missing hs
    intro q hq
    have hlq := lookup_of_mem_sorted hs hq
    rw [hlq] at hl
    injection hl with h12
    subst h12
    exact emitFinished_incomplete hbad

/-- C8 witness: a table with an incomplete entry (missing name) at index 0
and a complete entry at index 1. -/
theorem C8_witness :
    (drainPending [(0, (⟨some "x", none, "z"⟩ : PendingToolCall)),
        (1, ⟨some "y", some "g", "\x7b\x7d"⟩)]).filter (fun f => f.index == 0) = [] ∧
    drainPending [(0, (⟨some "x", none, "z"⟩ : PendingToolCall)),
        (1, ⟨some "y", some "g", "\x7b\x7d"⟩)] =
      drainPending ([(0, (⟨some "x", none, "z"⟩ : PendingToolCall)),
        (1, ⟨some "y", some "g", "\x7b\x7d"⟩)].filter (fun e => !(e.1 == 0))) :=
  C8_incomplete_dropped _ 0 ⟨some "x", none, "z"⟩
    (by unfold SortedKeys; decide) rfl (Or.inr (Or.inl rfl))

/-! ### Claim C9: cancellation before any finish chunk -/

/-- C9: when the cancellation signal becomes active at check `k` and no
finish chunk appears among the chunks processed before it, the loop emits
exactly the text fragments of those first `k - 1` chunks: no tool-call
events are ever emitted for in-progress calls, and nothing is emitted once
the cancellation is observed. -/
theorem C9_cancellation_stops_stream (chunks : List Chunk) (k : Nat)
    (hnf : ∀ c ∈ chunks.take (k - 1), finishTruthy c.finish_reason = none) :
    (runLoop (some k) 0 [] chunks).1 = textFrags (chunks.take (k - 1)) ∧
    toolCallFrags ((runLoop (some k) 0 [] chunks).1) = [] := by
  have h := runLoop_cancelled chunks 0 [] (by simpa using hnf)
  constructor
  · simpa using h
  · rw [show (runLoop (some k) 0 [] chunks).1 = textFrags (chunks.take (k - 1)) by simpa using h]
    exact toolCallFrags_textFrags _

/-- C9 witness: a cancellation at check 2 over a stream of two text chunks,
tool-call fragments in progress, and a pending finish chunk: only the first
chunk's text is emitted. -/
theorem C9_witness :
    (∀ c ∈ ([⟨⟨some "hi", [⟨0, some "x", some "f", some "\x7b\x7d"⟩]⟩, none⟩,
        ⟨⟨some "bye", []⟩, none⟩,
        ⟨⟨none, []⟩, some "tool_calls"⟩] : List Chunk).take (2 - 1),
      finishTruthy c.finish_reason = none) ∧
    (runLoop (some 2) 0 [] [⟨⟨some "hi", [⟨0, some "x", some "f", some "\x7b\x7d"⟩]⟩, none⟩,
        ⟨⟨some "bye", []⟩, none⟩,
        ⟨⟨none, []⟩, some "tool_calls"⟩]).1 =
      textFrags (([⟨⟨some "hi", [⟨0, some "x", some "f", some "\x7b\x7d"⟩]⟩, none⟩,
        ⟨⟨some "bye", []⟩, none⟩,
        ⟨⟨none, []⟩, some "tool_calls"⟩] : List Chunk).take (2 - 1)) :=
  ⟨by decide,
    (C9_cancellation_stops_stream _ 2 (by decide)).1⟩

/-! ### Claim C10: a finish reason preempts same-chunk tool-call fragments -/

/-- C10: when a chunk carries a (truthy) finish reason, the loop's entire
output is independent of any tool-call fragments carried in that same
chunk's delta, and of every later chunk: the finish is processed first and
the loop stops, so those fragments are never accumulated and never
contribute to any event. -/
theorem C10_finish_preempts_fragments (cancelAt : Option Nat) (count : Nat)
    (m : List (Nat × PendingToolCall)) (content : Option String)
    (tcs1 tcs2 : List DeltaToolCall) (fr : Option String) (r : String)
    (rest1 rest2 : List Chunk) (h : finishTruthy fr = some r) :
    runLoop cancelAt count m (⟨⟨content, tcs1⟩, fr⟩ :: rest1) =
    runLoop cancelAt count m (⟨⟨content, tcs2⟩, fr⟩ :: rest2) := by
  simp only [runLoop, chunkText, h]

/-- C10 witness: a `stop`-finishing chunk carrying a tool-call fragment
versus the same chunk carrying none, over different stream tails. -/
theorem C10_witness :
    finishTruthy (some "stop") = some "stop" ∧
    runLoop none 0 [] [⟨⟨some "t", [⟨0, some "x", some "f", some "\x7b\x7d"⟩]⟩, some "stop"⟩,
        ⟨⟨some "later", []⟩, none⟩] =
      runLoop none 0 [] [⟨⟨some "t", []⟩, some "stop"⟩] :=
  ⟨rfl, C10_finish_preempts_fragments none 0 [] (some "t")
    [⟨0, some "x", some "f", some "\x7b\x7d"⟩] [] (some "stop") "stop"
    [⟨⟨some "later", []⟩, none⟩] [] rfl⟩

/-! ### Claim C1: reassembly of a completed tool call -/

/-- C1: over a stream whose body accumulates, at index `i`, a (non-empty)
id, a name, and argument fragments concatenating to valid JSON, followed by
a `tool_calls` finish chunk, the loop's output decomposes into the body's
text fragments, the finish chunk's text, and the drained pending table; the
prefix before the drain contains no completed tool-call event (so such
events appear only at stream end, never during accumulation); the drain
emits exactly one event at index `i`, a completed tool call carrying the
id, the name and the parsed arguments; and all completed tool-call events
appear in ascending tool-index order. -/
theorem C1_completed_tool_call_reassembly (body : List Chunk) (fin : Chunk) (i : Nat)
    (idv nm buf : String) (v : Json)
    (hnf : ∀ c ∈ body, finishTruthy c.finish_reason = none)
    (hfin : finishTruthy fin.finish_reason = some "tool_calls")
    (hacc : (accumMap [] body).lookup i = some ⟨some idv, some nm, buf⟩)
    (hid : idv ≠ "") (hnm : nm ≠ "") (hjson : jsonParse buf = some v) :
    (runLoop none 0 [] (body ++ [fin])).1 =
      textFrags body ++ chunkText fin ++ drainPending (accumMap [] body) ∧
    toolCallFrags (textFrags body ++ chunkText fin) = [] ∧
    (drainPending (accumMap [] body)).filter (fun f => f.index == i) =
      [⟨i, Part.toolCall idv nm v⟩] ∧
    (toolCallFrags ((runLoop none 0 [] (body ++ [fin])).1)).Pairwise
      (fun a b => a.1 < b.1) := by
  have hsorted : SortedKeys (accumMap [] body) :=
    accumMap_sorted (by simp [SortedKeys])
  have hrun := runLoop_body_fin hfin body 0 [] hnf
  have hout : (runLoop none 0 [] (body ++ [fin])).1 =
      textFrags body ++ chunkText fin ++ drainPending (accumMap [] body) := by
    rw [hrun]
    simp
  have hbuf : buf ≠ "" := by
    intro hb
    rw [hb] at hjson
    have hnone : jsonParse "" = none := rfl
    rw [hnone] at hjson
    cases hjson
  refine ⟨hout, ?_, ?_, ?_⟩
  · rw [toolCallFrags_append, toolCallFrags_textFrags, toolCallFrags_chunkText]
    rfl
  · rw [drain_filter_eq hsorted hacc]
    simp [emitFinished, hid, hnm, hbuf, hjson]
  · rw [hout, toolCallFrags_append, toolCallFrags_append, toolCallFrags_textFrags,
      toolCallFrags_chunkText]
    simpa using toolCallFrags_drain_sorted hsorted

/-- C1 witness: fragments `"{\"a\":"` then `"1}"` at index 0 with id `x`,
name `f`, then a `tool_calls` finish: the drain emits exactly the one
completed tool call with parsed arguments `{a: 1}`. -/
theorem C1_witness :
    (drainPending (accumMap []
      [⟨⟨none, [⟨0, some "x", some "f", some "\x7b\"a\":"⟩]⟩, none⟩,
       ⟨⟨none, [⟨0, none, none, some "1\x7d"⟩]⟩, none⟩])).filter (fun f => f.index == 0) =
    [⟨0, Part.toolCall "x" "f" (Json.obj [("a", Json.num 1)])⟩] :=
  (C1_completed_tool_call_reassembly
    [⟨⟨none, [⟨0, some "x", some "f", some "\x7b\"a\":"⟩]⟩, none⟩,
     ⟨⟨none, [⟨0, none, none, some "1\x7d"⟩]⟩, none⟩]
    ⟨⟨none, []⟩, some "tool_calls"⟩ 0 "x" "f" "\x7b\"a\":1\x7d"
    (Json.obj [("a", Json.num 1)])
    (by decide) rfl rfl (by decide) (by decide) rfl).2.2.1

/-! ### Claim C5: text fallback for unparsable accumulated arguments -/

/-- C5 counterexample: for fragments `"{a:1"` then `"}"` (invalid JSON) at
index 0 with id `x` and name `f`, the emitted fallback text is the bracketed
rendering `[Tool Call: f({a:1})]`, not the bare rendering `f({a:1})` the
claim states. -/
theorem C5_counterexample :
    (runLoop none 0 []
      ([⟨⟨none, [⟨0, some "x", some "f", some "\x7ba:1"⟩]⟩, none⟩,
        ⟨⟨none, [⟨0, none, none, some "\x7d"⟩]⟩, none⟩] ++
       [⟨⟨none, []⟩, some "tool_calls"⟩])).1 =
      [⟨0, Part.text "[Tool Call: f(\x7ba:1\x7d)]"⟩] ∧
    "[Tool Call: f(\x7ba:1\x7d)]" ≠ "f(\x7ba:1\x7d)" :=
  ⟨rfl, by decide⟩

/-- C5 (amended): for a pending tool call whose id and name are present and
whose non-empty accumulated arguments buffer fails to parse as JSON at the
`tool_calls` finish, the drain emits exactly one event at that call's
index: a text fragment whose literal content is the bracketed rendering
`[Tool Call: name(argumentsBuffer)]`. -/
theorem C5_parse_failure_fallback (body : List Chunk) (fin : Chunk) (i : Nat)
    (idv nm buf : String)
    (hnf : ∀ c ∈ body, finishTruthy c.finish_reason = none)
    (hfin : finishTruthy fin.finish_reason = some "tool_calls")
    (hacc : (accumMap [] body).lookup i = some ⟨some idv, some nm, buf⟩)
    (hid : idv ≠ "") (hnm : nm ≠ "") (hbuf : buf ≠ "") (hjson : jsonParse buf = none) :
    (runLoop none 0 [] (body ++ [fin])).1 =
      textFrags body ++ chunkText fin ++ drainPending (accumMap [] body) ∧
    (drainPending (accumMap [] body)).filter (fun f => f.index == i) =
      [⟨i, Part.text ("[Tool Call: " ++ nm ++ "(" ++ buf ++ ")]")⟩] := by
  have hsorted : SortedKeys (accumMap [] body) :=
    accumMap_sorted (by simp [SortedKeys])
  have hrun := runLoop_body_fin hfin body 0 [] hnf
  constructor
  · rw [hrun]
    simp
  · rw [drain_filter_eq hsorted hacc]
    simp [emitFinished, hid, hnm, hbuf, hjson]

/-- C5 witness: the amended claim at the concrete malformed stream
(`"{a:1"` + `"}"`). -/
theorem C5_witness :
    (drainPending (accumMap []
      [⟨⟨none, [⟨0, some "x", some "f", some "\x7ba:1"⟩]⟩, none⟩,
       ⟨⟨none, [⟨0, none, none, some "\x7d"⟩]⟩, none⟩])).filter (fun f => f.index == 0) =
    [⟨0, Part.text ("[Tool Call: " ++ "f" ++ "(" ++ "\x7ba:1\x7d" ++ ")]")⟩] :=
  (C5_parse_failure_fallback
    [⟨⟨none, [⟨0, some "x", some "f", some "\x7ba:1"⟩]⟩, none⟩,
     ⟨⟨none, [⟨0, none, none, some "\x7d"⟩]⟩, none⟩]
    ⟨⟨none, []⟩, some "tool_calls"⟩ 0 "x" "f" "\x7ba:1\x7d"
    (by decide) rfl rfl (by decide) (by decide) (by decide) rfl).2

/-! ### Claim C2: no failure crosses the chat-response boundary -/

/-- C2: `provideLanguageModelChatResponse` is a total function into a plain
fragment list (so no failure ever propagates across the boundary), and each
failure mode is converted into a single reported text part: a missing
credential yields exactly the missing-key message; an empty translated
message list yields exactly the no-valid-messages message; a rejected
upstream call yields exactly the classified error report; a fault raised
while consuming a fully-drained stream appends exactly one classified error
report after the fragments already emitted. -/
theorem C2_failures_become_text_reports (model : ModelInfo) (messages : List ChatMessage)
    (options : Options) (envKey configKey : Option String)
    (create : RequestParams → Except ErrorInfo StreamData) (cancelAt : Option Nat) :
    (getApiKey envKey configKey = none →
      provideLanguageModelChatResponse model messages options envKey configKey create cancelAt =
        [⟨0, Part.text missingKeyText⟩]) ∧
    (∀ k, getApiKey envKey configKey = some k → translate messages = [] →
      provideLanguageModelChatResponse model messages options envKey configKey create cancelAt =
        [⟨0, Part.text noValidMessagesText⟩]) ∧
    (∀ k e, getApiKey envKey configKey = some k → translate messages ≠ [] →
      create (buildRequestParams model options (translate messages)) = Except.error e →
      provideLanguageModelChatResponse model messages options envKey configKey create cancelAt =
        [⟨0, Part.text (errorReportText e)⟩]) ∧
    (∀ k sd e, getApiKey envKey configKey = some k → translate messages ≠ [] →
      create (buildRequestParams model options (translate messages)) = Except.ok sd →
      (runLoop cancelAt 0 [] sd.chunks).2 = true → sd.trailingError = some e →
      provideLanguageModelChatResponse model messages options envKey configKey create cancelAt =
        (runLoop cancelAt 0 [] sd.chunks).1 ++ [⟨0, Part.text (errorReportText e)⟩]) := by
  refine ⟨?_, ?_, ?_, ?_⟩
  · intro h
    simp [provideLanguageModelChatResponse, h]
  · intro k hk hempty
    simp [provideLanguageModelChatResponse, hk, hempty]
  · intro k e hk hne hcreate
    have hlen : ¬ (translate messages).length = 0 := by
      simpa [List.length_eq_zero] using hne
    simp [provideLanguageModelChatResponse, hk, hlen, hcreate]
  · intro k sd e hk hne hcreate hend htrail
    have hlen : ¬ (translate messages).length = 0 := by
      simpa [List.length_eq_zero] using hne
    simp [provideLanguageModelChatResponse, hk, hlen, hcreate, hend, htrail]

/-- C2 witness: with no credential resolvable, the call reports exactly the
missing-key text part and returns normally. -/
theorem C2_witness :
    provideLanguageModelChatResponse ⟨"v0-1.5-md", 64000, true⟩
      [⟨ChatRole.User, MessageContent.str "hello"⟩] ⟨none, [], 0⟩ none none
      (fun _ => Except.ok ⟨[], none⟩) none = [⟨0, Part.text missingKeyText⟩] :=
  (C2_failures_become_text_reports ⟨"v0-1.5-md", 64000, true⟩
    [⟨ChatRole.User, MessageContent.str "hello"⟩] ⟨none, [], 0⟩ none none
    (fun _ => Except.ok ⟨[], none⟩) none).1 rfl

end V0Dev
